import Mathlib

/-!
Verification of the e-Library store (`main.go`).

The program keeps an in-memory `Library` with two maps guarded by one
reader/writer lock: `Books : map[string]BookDetail` and
`Loans : map[string][]LoanDetail`.  Four HTTP handlers expose the store:
`getBookHandler` (lookup), `borrowBookHandler`, `extendLoanHandler` and
`returnBookHandler`.  We embed the store-mutating core of each handler —
everything after HTTP-method / body validation, i.e. the part that runs
under the lock — as a pure function from the store state (plus request
arguments, plus the current time for borrow) to a result and a new state.

Go maps are embedded as functions `String → Option _` (a read returns the
value and an `exists` flag; a missing slice key reads as `none`).
Timestamps (`time.Time`) are embedded as `Int` day counts;
`t.AddDate(0, 0, n)` becomes `t + n`.  Go `int` is embedded as `Int`.
-/

/-- `BookDetail` from `main.go`: a catalog entry. -/
structure BookDetail where
  title : String
  availableCopies : Int
  deriving Repr, DecidableEq

/-- `LoanDetail` from `main.go`: one active loan of one copy. -/
structure LoanDetail where
  bookTitle : String
  nameOfBorrower : String
  loanDate : Int
  returnDate : Int
  deriving Repr, DecidableEq

/-- A Go `map[string]α`: lookup yields `some v` exactly when the key is
present (the `v, exists := m[k]` idiom). -/
def StrMap (α : Type) : Type := String → Option α

/-- The empty map (`make(map[string]...)`). -/
def StrMap.empty {α : Type} : StrMap α := fun _ => none

/-- Go map assignment `m[k] = v`. -/
def StrMap.update {α : Type} (m : StrMap α) (k : String) (v : α) : StrMap α :=
  fun q => if q = k then some v else m q

/-- The `Library` struct from `main.go` (the mutex is the lock, not state;
each embedded operation is one full critical section). -/
structure Library where
  Books : StrMap BookDetail
  Loans : StrMap (List LoanDetail)

/-- `NewLibrary` from `main.go`: the seeded store. -/
def NewLibrary : Library :=
  { Books := (StrMap.empty.update "Go Programming"
        { title := "Go Programming", availableCopies := 3 }).update "Clean Code"
        { title := "Clean Code", availableCopies := 2 }
    Loans := StrMap.empty }

/-- Result of `getBookHandler`'s store access: the book, or a 404. -/
def getBook (l : Library) (title : String) : Option BookDetail × Library :=
  (l.Books title, l)

/-- Outcome of `borrowBookHandler`'s critical section. -/
inductive BorrowResult where
  | notFound
  | noCopies
  | created (loan : LoanDetail)
  deriving Repr, DecidableEq

/-- Core of `borrowBookHandler` (`main.go` lines 100-129): look the title
up, reject a missing title (404) or `AvailableCopies <= 0` (409);
otherwise decrement the count, build a loan due 28 days from `now`,
append it to the title's loan slice and return it (201). -/
def borrowBook (l : Library) (title borrower : String) (now : Int) :
    BorrowResult × Library :=
  match l.Books title with
  | none => (BorrowResult.notFound, l)
  | some book =>
    if book.availableCopies ≤ 0 then
      (BorrowResult.noCopies, l)
    else
      let loan : LoanDetail :=
        { bookTitle := title, nameOfBorrower := borrower,
          loanDate := now, returnDate := now + 28 }
      (BorrowResult.created loan,
       { Books := l.Books.update title
           { book with availableCopies := book.availableCopies - 1 }
         Loans := l.Loans.update title (((l.Loans title).getD []) ++ [loan]) })

/-- Outcome of `extendLoanHandler`'s critical section. -/
inductive ExtendResult where
  | noLoansForTitle
  | noLoanForBorrower
  | extended (loan : LoanDetail)
  deriving Repr, DecidableEq

/-- The 21-day extension applied to a matched loan
(`loans[i].ReturnDate = loan.ReturnDate.AddDate(0, 0, 21)`). -/
def extendDays (lo : LoanDetail) : LoanDetail :=
  { lo with returnDate := lo.returnDate + 21 }

/-- The `for i, loan := range loans` scan of `extendLoanHandler`: walk the
slice in order, and at the first loan whose `NameOfBorrower` matches,
extend its return date in place and stop (`break`).  Yields the extended
loan and the updated slice, or `none` when no entry matches. -/
def extendFirst (borrower : String) :
    List LoanDetail → Option (LoanDetail × List LoanDetail)
  | [] => none
  | lo :: rest =>
    if lo.nameOfBorrower = borrower then
      some (extendDays lo, extendDays lo :: rest)
    else
      match extendFirst borrower rest with
      | none => none
      | some (e, rest2) => some (e, lo :: rest2)

/-- Core of `extendLoanHandler` (`main.go` lines 153-183): a missing loan
slice is the title-level 404 (`"No loans found for this book"`); an
unmatched scan is the borrower 404 (`"No loan found for this borrower"`);
otherwise the first matching loan gains 21 days and is returned. -/
def extendLoan (l : Library) (title borrower : String) :
    ExtendResult × Library :=
  match l.Loans title with
  | none => (ExtendResult.noLoansForTitle, l)
  | some loans =>
    match extendFirst borrower loans with
    | none => (ExtendResult.noLoanForBorrower, l)
    | some (e, loans2) =>
      (ExtendResult.extended e, { l with Loans := l.Loans.update title loans2 })

/-- Outcome of `returnBookHandler`'s critical section. -/
inductive ReturnResult where
  | noLoansForTitle
  | bookNotFound
  | noLoanForBorrower
  | returned
  deriving Repr, DecidableEq

/-- The index-finding scan of `returnBookHandler`: index of the first loan
whose `NameOfBorrower` matches (`loanIndex`), `none` for Go's `-1`. -/
def findLoanIndex (borrower : String) : List LoanDetail → Option Nat
  | [] => none
  | lo :: rest =>
    if lo.nameOfBorrower = borrower then some 0
    else (findLoanIndex borrower rest).map (· + 1)

/-- Core of `returnBookHandler` (`main.go` lines 207-240): a missing loan
slice is the title-level 404, then a missing catalog entry is
`"Book not found"`, then an unmatched scan is the borrower 404; otherwise
the matched loan is removed by swap-and-truncate
(`loans[loanIndex] = loans[len(loans)-1]; loans[:len(loans)-1]`) and the
book's `AvailableCopies` is incremented.  (`findLoanIndex` succeeding
forces the slice non-empty, so `getLast?` is `some` in that branch.) -/
def returnBook (l : Library) (title borrower : String) :
    ReturnResult × Library :=
  match l.Loans title with
  | none => (ReturnResult.noLoansForTitle, l)
  | some loans =>
    match l.Books title with
    | none => (ReturnResult.bookNotFound, l)
    | some book =>
      match findLoanIndex borrower loans, loans.getLast? with
      | some i, some lastLoan =>
        (ReturnResult.returned,
         { Books := l.Books.update title
             { book with availableCopies := book.availableCopies + 1 }
           Loans := l.Loans.update title ((loans.set i lastLoan).dropLast) })
      | _, _ => (ReturnResult.noLoanForBorrower, l)

/-- The invariant of spec section 3: no catalog entry ever holds a negative
copy count. -/
def NonNegCopies (l : Library) : Prop :=
  ∀ t b, l.Books t = some b → 0 ≤ b.availableCopies

/-! ### Map lemmas -/

theorem StrMap.update_self {α : Type} (m : StrMap α) (k : String) (v : α) :
    m.update k v k = some v := by
  simp [StrMap.update]

theorem StrMap.update_other {α : Type} (m : StrMap α) (k q : String) (v : α)
    (h : q ≠ k) : m.update k v q = m q := by
  simp [StrMap.update, h]

theorem StrMap.update_isSome {α : Type} (m : StrMap α) (k q : String) (v : α)
    (h : (m k).isSome) : (m.update k v q).isSome = (m q).isSome := by
  by_cases hq : q = k
  · subst hq
    simp [StrMap.update, h]
  · simp [StrMap.update, hq]

/-! ### Scan lemmas -/

theorem extendDays_name (lo : LoanDetail) :
    (extendDays lo).nameOfBorrower = lo.nameOfBorrower := rfl

theorem extendFirst_eq_none_of_all (B : String) (loans : List LoanDetail)
    (h : ∀ lo ∈ loans, lo.nameOfBorrower ≠ B) :
    extendFirst B loans = none := by
  induction loans with
  | nil => rfl
  | cons lo rest ih =>
    have h1 : lo.nameOfBorrower ≠ B := h lo (List.mem_cons_self lo rest)
    have h2 := ih (fun x hx => h x (List.mem_cons_of_mem lo hx))
    simp [extendFirst, h1, h2]

theorem extendFirst_isSome_of_mem (B : String) (loans : List LoanDetail)
    (lo : LoanDetail) (hmem : lo ∈ loans) (hname : lo.nameOfBorrower = B) :
    ∃ e loans2, extendFirst B loans = some (e, loans2) := by
  induction loans with
  | nil => cases hmem
  | cons x rest ih =>
    by_cases hx : x.nameOfBorrower = B
    · exact ⟨extendDays x, extendDays x :: rest, by simp [extendFirst, hx]⟩
    · rcases List.mem_cons.mp hmem with h | h
      · subst h; exact absurd hname hx
      · obtain ⟨e, l2, hl⟩ := ih h
        exact ⟨e, x :: l2, by simp [extendFirst, hx, hl]⟩

theorem extendFirst_first_match (B : String) (loans : List LoanDetail)
    (i : Nat) (hi : i < loans.length)
    (hm : (loans.get ⟨i, hi⟩).nameOfBorrower = B)
    (hf : ∀ j, (hj : j < loans.length) → j < i →
      (loans.get ⟨j, hj⟩).nameOfBorrower ≠ B) :
    extendFirst B loans =
      some (extendDays (loans.get ⟨i, hi⟩),
            loans.set i (extendDays (loans.get ⟨i, hi⟩))) := by
  induction loans generalizing i with
  | nil => exact absurd hi (by simp)
  | cons lo rest ih =>
    cases i with
    | zero =>
      have hm0 : lo.nameOfBorrower = B := hm
      simp [extendFirst, hm0]
    | succ i =>
      have hlo : lo.nameOfBorrower ≠ B := by
        have := hf 0 (by simp) (Nat.succ_pos i)
        simpa using this
      have hi' : i < rest.length := Nat.lt_of_succ_lt_succ hi
      have hm' : (rest.get ⟨i, hi'⟩).nameOfBorrower = B := hm
      have hf' : ∀ j, (hj : j < rest.length) → j < i →
          (rest.get ⟨j, hj⟩).nameOfBorrower ≠ B := by
        intro j hj hji
        have := hf (j + 1) (by simpa using Nat.succ_lt_succ hj)
          (Nat.succ_lt_succ hji)
        simpa using this
      have hrec := ih i hi' hm' hf'
      simp [extendFirst, hlo, hrec]

theorem extendFirst_again (B : String) (loans loans2 : List LoanDetail)
    (e : LoanDetail) (h : extendFirst B loans = some (e, loans2)) :
    ∃ loans3, extendFirst B loans2 = some (extendDays e, loans3) := by
  induction loans generalizing loans2 e with
  | nil => simp [extendFirst] at h
  | cons lo rest ih =>
    by_cases hlo : lo.nameOfBorrower = B
    · simp only [extendFirst, if_pos hlo, Option.some.injEq, Prod.mk.injEq] at h
      obtain ⟨rfl, rfl⟩ := h
      refine ⟨extendDays (extendDays lo) :: rest, ?_⟩
      have : (extendDays lo).nameOfBorrower = B := by
        rw [extendDays_name]; exact hlo
      simp [extendFirst, this]
    · simp only [extendFirst, if_neg hlo] at h
      cases hrec : extendFirst B rest with
      | none => rw [hrec] at h; cases h
      | some p =>
        obtain ⟨e0, rest2⟩ := p
        rw [hrec] at h
        simp only [Option.some.injEq, Prod.mk.injEq] at h
        obtain ⟨rfl, rfl⟩ := h
        obtain ⟨rest3, hrest3⟩ := ih rest2 e0 hrec
        refine ⟨lo :: rest3, ?_⟩
        simp [extendFirst, hlo, hrest3]

theorem findLoanIndex_eq_none_of_all (B : String) (loans : List LoanDetail)
    (h : ∀ lo ∈ loans, lo.nameOfBorrower ≠ B) :
    findLoanIndex B loans = none := by
  induction loans with
  | nil => rfl
  | cons lo rest ih =>
    have h1 : lo.nameOfBorrower ≠ B := h lo (List.mem_cons_self lo rest)
    have h2 := ih (fun x hx => h x (List.mem_cons_of_mem lo hx))
    simp [findLoanIndex, h1, h2]

theorem findLoanIndex_isSome_of_mem (B : String) (loans : List LoanDetail)
    (lo : LoanDetail) (hmem : lo ∈ loans) (hname : lo.nameOfBorrower = B) :
    ∃ i, findLoanIndex B loans = some i := by
  induction loans with
  | nil => cases hmem
  | cons x rest ih =>
    by_cases hx : x.nameOfBorrower = B
    · exact ⟨0, by simp [findLoanIndex, hx]⟩
    · rcases List.mem_cons.mp hmem with h | h
      · subst h; exact absurd hname hx
      · obtain ⟨i, hi⟩ := ih h
        exact ⟨i + 1, by simp [findLoanIndex, hx, hi]⟩

theorem findLoanIndex_first_match (B : String) (loans : List LoanDetail)
    (i : Nat) (hi : i < loans.length)
    (hm : (loans.get ⟨i, hi⟩).nameOfBorrower = B)
    (hf : ∀ j, (hj : j < loans.length) → j < i →
      (loans.get ⟨j, hj⟩).nameOfBorrower ≠ B) :
    findLoanIndex B loans = some i := by
  induction loans generalizing i with
  | nil => exact absurd hi (by simp)
  | cons lo rest ih =>
    cases i with
    | zero =>
      have hm0 : lo.nameOfBorrower = B := hm
      simp [findLoanIndex, hm0]
    | succ i =>
      have hlo : lo.nameOfBorrower ≠ B := by
        have := hf 0 (by simp) (Nat.succ_pos i)
        simpa using this
      have hi' : i < rest.length := Nat.lt_of_succ_lt_succ hi
      have hm' : (rest.get ⟨i, hi'⟩).nameOfBorrower = B := hm
      have hf' : ∀ j, (hj : j < rest.length) → j < i →
          (rest.get ⟨j, hj⟩).nameOfBorrower ≠ B := by
        intro j hj hji
        have := hf (j + 1) (by simpa using Nat.succ_lt_succ hj)
          (Nat.succ_lt_succ hji)
        simpa using this
      simp [findLoanIndex, hlo, ih i hi' hm' hf']

theorem findLoanIndex_lt_length (B : String) (loans : List LoanDetail)
    (i : Nat) (h : findLoanIndex B loans = some i) : i < loans.length := by
  induction loans generalizing i with
  | nil => simp [findLoanIndex] at h
  | cons lo rest ih =>
    by_cases hlo : lo.nameOfBorrower = B
    · simp only [findLoanIndex, if_pos hlo, Option.some.injEq] at h
      subst h
      simp
    · simp only [findLoanIndex, if_neg hlo] at h
      cases hrec : findLoanIndex B rest with
      | none => rw [hrec] at h; cases h
      | some j =>
        rw [hrec] at h
        simp only [Option.map_some', Option.some.injEq] at h
        have := ih j hrec
        simp only [List.length_cons]
        omega
/-- Swap-and-truncate removal at index `i` keeps exactly the other
elements: it is a permutation of deleting index `i` outright. -/
theorem swapRemove_perm (loans : List LoanDetail) (i : Nat)
    (hi : i < loans.length) (lastLoan : LoanDetail)
    (hlast : loans.getLast? = some lastLoan) :
    List.Perm ((loans.set i lastLoan).dropLast) (loans.eraseIdx i) := by
  induction loans generalizing i with
  | nil => exact absurd hi (by simp)
  | cons x t ih =>
    cases t with
    | nil =>
      have hi0 : i = 0 := by simpa using hi
      subst hi0
      simp
    | cons y rest =>
      cases i with
      | zero =>
        have hl2 : lastLoan ∈ (y :: rest).getLast? := by
          rw [← List.getLast?_cons_cons (a := x)]
          exact hlast
        have hsplit : (y :: rest).dropLast ++ [lastLoan] = y :: rest :=
          List.dropLast_append_getLast? lastLoan hl2
        have hperm :
            List.Perm ((y :: rest).dropLast ++ [lastLoan])
              (lastLoan :: (y :: rest).dropLast) :=
          List.perm_append_singleton lastLoan (y :: rest).dropLast
        rw [hsplit] at hperm
        have h1 : ((x :: y :: rest).set 0 lastLoan).dropLast
            = lastLoan :: (y :: rest).dropLast := by
          simp [List.dropLast_cons₂]
        have h2 : (x :: y :: rest).eraseIdx 0 = y :: rest := rfl
        rw [h1, h2]
        exact hperm.symm
      | succ j =>
        have hj : j < (y :: rest).length := by
          simpa using Nat.lt_of_succ_lt_succ hi
        have hlast' : (y :: rest).getLast? = some lastLoan := by
          rw [← List.getLast?_cons_cons (a := x)]
          exact hlast
        have hne : (y :: rest).set j lastLoan ≠ [] := by
          intro hcontra
          have := congrArg List.length hcontra
          simp at this
        have hstep :
            ((x :: y :: rest).set (j + 1) lastLoan).dropLast =
              x :: ((y :: rest).set j lastLoan).dropLast := by
          cases hset : (y :: rest).set j lastLoan with
          | nil => exact absurd hset hne
          | cons z w => simp [List.set_cons_succ, hset, List.dropLast_cons₂]
        rw [hstep]
        exact List.Perm.cons x (ih j hj hlast')

/-! ### Characterizations of the four operations -/

theorem borrowBook_absent (l : Library) (T B : String) (now : Int)
    (hb : l.Books T = none) :
    borrowBook l T B now = (BorrowResult.notFound, l) := by
  simp [borrowBook, hb]

theorem borrowBook_noCopies_eq (l : Library) (T B : String) (now : Int)
    (book : BookDetail) (hb : l.Books T = some book)
    (hc : book.availableCopies ≤ 0) :
    borrowBook l T B now = (BorrowResult.noCopies, l) := by
  simp [borrowBook, hb, hc]

theorem borrowBook_success (l : Library) (T B : String) (now : Int)
    (book : BookDetail) (hb : l.Books T = some book)
    (hc : 0 < book.availableCopies) :
    borrowBook l T B now =
      (BorrowResult.created
        { bookTitle := T, nameOfBorrower := B,
          loanDate := now, returnDate := now + 28 },
       { Books := l.Books.update T
           { book with availableCopies := book.availableCopies - 1 }
         Loans := l.Loans.update T (((l.Loans T).getD []) ++
           [{ bookTitle := T, nameOfBorrower := B,
              loanDate := now, returnDate := now + 28 }]) }) := by
  have hc' : ¬ book.availableCopies ≤ 0 := not_le.mpr hc
  simp [borrowBook, hb, hc']

theorem extendLoan_noTitle (l : Library) (T B : String)
    (hl : l.Loans T = none) :
    extendLoan l T B = (ExtendResult.noLoansForTitle, l) := by
  simp [extendLoan, hl]

theorem extendLoan_noMatch (l : Library) (T B : String)
    (loans : List LoanDetail) (hl : l.Loans T = some loans)
    (hall : ∀ lo ∈ loans, lo.nameOfBorrower ≠ B) :
    extendLoan l T B = (ExtendResult.noLoanForBorrower, l) := by
  simp [extendLoan, hl, extendFirst_eq_none_of_all B loans hall]

theorem extendLoan_match (l : Library) (T B : String)
    (loans loans2 : List LoanDetail) (e : LoanDetail)
    (hl : l.Loans T = some loans)
    (hef : extendFirst B loans = some (e, loans2)) :
    extendLoan l T B =
      (ExtendResult.extended e,
       { l with Loans := l.Loans.update T loans2 }) := by
  simp [extendLoan, hl, hef]

theorem returnBook_noTitle (l : Library) (T B : String)
    (hl : l.Loans T = none) :
    returnBook l T B = (ReturnResult.noLoansForTitle, l) := by
  simp [returnBook, hl]

theorem returnBook_noBook (l : Library) (T B : String)
    (loans : List LoanDetail) (hl : l.Loans T = some loans)
    (hb : l.Books T = none) :
    returnBook l T B = (ReturnResult.bookNotFound, l) := by
  simp [returnBook, hl, hb]

theorem returnBook_noMatch (l : Library) (T B : String)
    (loans : List LoanDetail) (book : BookDetail)
    (hl : l.Loans T = some loans) (hb : l.Books T = some book)
    (hall : ∀ lo ∈ loans, lo.nameOfBorrower ≠ B) :
    returnBook l T B = (ReturnResult.noLoanForBorrower, l) := by
  cases hlast : loans.getLast? with
  | none => simp [returnBook, hl, hb, findLoanIndex_eq_none_of_all B loans hall, hlast]
  | some lastLoan => simp [returnBook, hl, hb, findLoanIndex_eq_none_of_all B loans hall, hlast]

theorem returnBook_success (l : Library) (T B : String)
    (loans : List LoanDetail) (book : BookDetail) (i : Nat)
    (lastLoan : LoanDetail)
    (hl : l.Loans T = some loans) (hb : l.Books T = some book)
    (hidx : findLoanIndex B loans = some i)
    (hlast : loans.getLast? = some lastLoan) :
    returnBook l T B =
      (ReturnResult.returned,
       { Books := l.Books.update T
           { book with availableCopies := book.availableCopies + 1 }
         Loans := l.Loans.update T ((loans.set i lastLoan).dropLast) }) := by
  simp [returnBook, hl, hb, hidx, hlast]

theorem getLast?_isSome_of_lt (loans : List LoanDetail) (i : Nat)
    (hi : i < loans.length) : ∃ lastLoan, loans.getLast? = some lastLoan := by
  cases loans with
  | nil => exact absurd hi (by simp)
  | cons x t => exact ⟨(x :: t).getLast (by simp), List.getLast?_eq_getLast _ _⟩
theorem returnBook_idx_none (l : Library) (T B : String)
    (loans : List LoanDetail) (book : BookDetail)
    (hl : l.Loans T = some loans) (hb : l.Books T = some book)
    (hidx : findLoanIndex B loans = none) :
    returnBook l T B = (ReturnResult.noLoanForBorrower, l) := by
  cases hlast : loans.getLast? with
  | none => simp [returnBook, hl, hb, hidx, hlast]
  | some x => simp [returnBook, hl, hb, hidx, hlast]

theorem extendLoan_ef_none (l : Library) (T B : String)
    (loans : List LoanDetail) (hl : l.Loans T = some loans)
    (hef : extendFirst B loans = none) :
    extendLoan l T B = (ExtendResult.noLoanForBorrower, l) := by
  simp [extendLoan, hl, hef]

theorem extendLoan_books (l : Library) (T B : String) :
    (extendLoan l T B).2.Books = l.Books := by
  cases hl : l.Loans T with
  | none => rw [extendLoan_noTitle l T B hl]
  | some loans =>
    cases hef : extendFirst B loans with
    | none => rw [extendLoan_ef_none l T B loans hl hef]
    | some p =>
      obtain ⟨e, loans2⟩ := p
      rw [extendLoan_match l T B loans loans2 e hl hef]

/-! ### Concrete stores for instantiating the theorems

`testReturnLib` is the store that `TestReturnBookHandler` builds: the title
"Design Patterns" with zero available copies and one outstanding loan by
"Bob Johnson".  `emptyLoanLib` has a loan slice that is present but empty.
`ghostLib` holds a loan for a title that is absent from the catalog. -/

def bobLoan : LoanDetail :=
  { bookTitle := "Design Patterns", nameOfBorrower := "Bob Johnson",
    loanDate := 0, returnDate := 28 }

def testReturnLib : Library :=
  { Books := StrMap.empty.update "Design Patterns"
      { title := "Design Patterns", availableCopies := 0 }
    Loans := StrMap.empty.update "Design Patterns" [bobLoan] }

def emptyLoanLib : Library :=
  { Books := StrMap.empty.update "Go Programming"
      { title := "Go Programming", availableCopies := 3 }
    Loans := StrMap.empty.update "Go Programming" [] }

def ghostLib : Library :=
  { Books := StrMap.empty
    Loans := StrMap.empty.update "Ghost Title"
      [{ bookTitle := "Ghost Title", nameOfBorrower := "Jane Smith",
         loanDate := 0, returnDate := 28 }] }

/-! ### The claims -/

/-- C1: starting from any state in which every catalog entry's
`availableCopies` is non-negative, each of the four operations (lookup,
borrow, extend, return) yields a state in which every catalog entry's
`availableCopies` is still non-negative; and borrow leaves the state
untouched unless the title's count is strictly positive (it decrements
only a strictly positive count). -/
theorem C1_ops_preserve_nonneg (l : Library) (h : NonNegCopies l)
    (T B : String) (now : Int) :
    NonNegCopies (getBook l T).2 ∧
    NonNegCopies (borrowBook l T B now).2 ∧
    NonNegCopies (extendLoan l T B).2 ∧
    NonNegCopies (returnBook l T B).2 ∧
    (∀ book, l.Books T = some book → book.availableCopies ≤ 0 →
      (borrowBook l T B now).2 = l) := by
  refine ⟨h, ?_, ?_, ?_, ?_⟩
  · cases hb : l.Books T with
    | none => rw [borrowBook_absent l T B now hb]; exact h
    | some book =>
      by_cases hc : book.availableCopies ≤ 0
      · rw [borrowBook_noCopies_eq l T B now book hb hc]; exact h
      · rw [borrowBook_success l T B now book hb (lt_of_not_le hc)]
        intro t b' hb'
        simp only [StrMap.update] at hb'
        by_cases ht : t = T
        · rw [if_pos ht] at hb'
          cases hb'
          simp only []
          omega
        · rw [if_neg ht] at hb'
          exact h t b' hb'
  · intro t b' hb'
    rw [extendLoan_books] at hb'
    exact h t b' hb'
  · cases hl : l.Loans T with
    | none => rw [returnBook_noTitle l T B hl]; exact h
    | some loans =>
      cases hb : l.Books T with
      | none => rw [returnBook_noBook l T B loans hl hb]; exact h
      | some book =>
        cases hidx : findLoanIndex B loans with
        | none => rw [returnBook_idx_none l T B loans book hl hb hidx]; exact h
        | some i =>
          obtain ⟨lastLoan, hlast⟩ := getLast?_isSome_of_lt loans i
            (findLoanIndex_lt_length B loans i hidx)
          rw [returnBook_success l T B loans book i lastLoan hl hb hidx hlast]
          intro t b' hb'
          simp only [StrMap.update] at hb'
          by_cases ht : t = T
          · rw [if_pos ht] at hb'
            cases hb'
            have := h T book hb
            simp only []
            omega
          · rw [if_neg ht] at hb'
            exact h t b' hb'
  · intro book hb hc
    rw [borrowBook_noCopies_eq l T B now book hb hc]

theorem C1_witness :
    NonNegCopies NewLibrary ∧
    NonNegCopies (borrowBook NewLibrary "Go Programming" "John" 0).2 := by
  have h : NonNegCopies NewLibrary := by
    intro t b hb
    simp only [NewLibrary, StrMap.update, StrMap.empty] at hb
    by_cases h1 : t = "Clean Code"
    · rw [if_pos h1] at hb; cases hb; decide
    · rw [if_neg h1] at hb
      by_cases h2 : t = "Go Programming"
      · rw [if_pos h2] at hb; cases hb; decide
      · rw [if_neg h2] at hb; cases hb
  exact ⟨h, (C1_ops_preserve_nonneg NewLibrary h "Go Programming" "John" 0).2.1⟩

/-- C2: when a cataloged title's `availableCopies` is zero, borrow fails
with the no-copies outcome (HTTP 409 `"No copies available"`) and returns
the store completely unchanged — both maps are the input maps. -/
theorem C2_borrow_zero_copies (l : Library) (T B : String) (now : Int)
    (book : BookDetail) (hb : l.Books T = some book)
    (h0 : book.availableCopies = 0) :
    borrowBook l T B now = (BorrowResult.noCopies, l) :=
  borrowBook_noCopies_eq l T B now book hb (le_of_eq h0)

theorem C2_witness :
    testReturnLib.Books "Design Patterns" =
      some { title := "Design Patterns", availableCopies := 0 } ∧
    borrowBook testReturnLib "Design Patterns" "John" 5 =
      (BorrowResult.noCopies, testReturnLib) :=
  ⟨by decide,
   C2_borrow_zero_copies testReturnLib "Design Patterns" "John" 5
     { title := "Design Patterns", availableCopies := 0 } (by decide) rfl⟩

/-- C3: borrowing a cataloged title with a strictly positive count
succeeds: the count drops by exactly one, exactly one new loan is created
with `loanDate = now` and `returnDate = loanDate + 28`, that loan is
appended at the end of the title's loan list and is the value returned,
and no other key of either map changes. -/
theorem C3_borrow_success (l : Library) (T B : String) (now : Int)
    (book : BookDetail) (hb : l.Books T = some book)
    (hc : 0 < book.availableCopies) :
    ∃ loan l2,
      borrowBook l T B now = (BorrowResult.created loan, l2) ∧
      loan.loanDate = now ∧
      loan.returnDate = loan.loanDate + 28 ∧
      loan.bookTitle = T ∧
      loan.nameOfBorrower = B ∧
      l2.Books T =
        some { book with availableCopies := book.availableCopies - 1 } ∧
      l2.Loans T = some (((l.Loans T).getD []) ++ [loan]) ∧
      (∀ k, k ≠ T → l2.Books k = l.Books k ∧ l2.Loans k = l.Loans k) := by
  refine ⟨_, _, borrowBook_success l T B now book hb hc,
    rfl, rfl, rfl, rfl, ?_, ?_, ?_⟩
  · exact StrMap.update_self _ _ _
  · exact StrMap.update_self _ _ _
  · intro k hk
    exact ⟨StrMap.update_other _ _ _ _ hk, StrMap.update_other _ _ _ _ hk⟩

theorem C3_witness :
    ∃ loan l2,
      borrowBook NewLibrary "Go Programming" "John" 0 =
        (BorrowResult.created loan, l2) ∧
      loan.loanDate = 0 ∧
      loan.returnDate = loan.loanDate + 28 ∧
      loan.bookTitle = "Go Programming" ∧
      loan.nameOfBorrower = "John" ∧
      l2.Books "Go Programming" =
        some { title := "Go Programming", availableCopies := 3 - 1 } ∧
      l2.Loans "Go Programming" =
        some (((NewLibrary.Loans "Go Programming").getD []) ++ [loan]) ∧
      (∀ k, k ≠ "Go Programming" →
        l2.Books k = NewLibrary.Books k ∧ l2.Loans k = NewLibrary.Loans k) :=
  C3_borrow_success NewLibrary "Go Programming" "John" 0
    { title := "Go Programming", availableCopies := 3 } (by decide) (by decide)
/-- C4: with a loan list present for the title, extend scans it in order:
if no entry's borrower matches it fails with the borrower-specific
not-found and the state is exactly the input state; otherwise only the
first matching entry is replaced, its new `returnDate` being the previous
`returnDate` plus 21 (not derived from the current time, which extend
never reads), and that updated loan is the returned value. -/
theorem C4_extend_first_match (l : Library) (T B : String)
    (loans : List LoanDetail) (hl : l.Loans T = some loans) :
    ((∀ lo ∈ loans, lo.nameOfBorrower ≠ B) →
      extendLoan l T B = (ExtendResult.noLoanForBorrower, l)) ∧
    (∀ i, (hi : i < loans.length) →
      (loans.get ⟨i, hi⟩).nameOfBorrower = B →
      (∀ j, (hj : j < loans.length) → j < i →
        (loans.get ⟨j, hj⟩).nameOfBorrower ≠ B) →
      extendLoan l T B =
        (ExtendResult.extended
          { loans.get ⟨i, hi⟩ with
            returnDate := (loans.get ⟨i, hi⟩).returnDate + 21 },
         { l with Loans :=
                    l.Loans.update T
                      (loans.set i
                        { loans.get ⟨i, hi⟩ with
                          returnDate :=
                            (loans.get ⟨i, hi⟩).returnDate + 21 }) })) := by
  constructor
  · intro hall
    exact extendLoan_noMatch l T B loans hl hall
  · intro i hi hm hf
    exact extendLoan_match l T B loans _ _ hl
      (extendFirst_first_match B loans i hi hm hf)

theorem C4_witness :
    extendLoan testReturnLib "Design Patterns" "Bob Johnson" =
      (ExtendResult.extended
        { bobLoan with returnDate := bobLoan.returnDate + 21 },
       { testReturnLib with
         Loans := testReturnLib.Loans.update "Design Patterns"
                    [{ bobLoan with
                       returnDate := bobLoan.returnDate + 21 }] }) :=
  (C4_extend_first_match testReturnLib "Design Patterns" "Bob Johnson"
      [bobLoan] (by decide)).2
    0 (by decide) (by decide) (fun j hj hlt => absurd hlt (by omega))

/-- C5: extending the same (title, borrower) twice in a row succeeds both
times and returns two loans whose `returnDate`s differ: the first is the
original `returnDate` plus 21, the second is the first plus 21 — extend
is not value-idempotent. -/
theorem C5_extend_twice (l : Library) (T B : String)
    (loans : List LoanDetail) (i : Nat) (hi : i < loans.length)
    (hl : l.Loans T = some loans)
    (hm : (loans.get ⟨i, hi⟩).nameOfBorrower = B)
    (hf : ∀ j, (hj : j < loans.length) → j < i →
      (loans.get ⟨j, hj⟩).nameOfBorrower ≠ B) :
    ∃ e1 l1 e2 l2,
      extendLoan l T B = (ExtendResult.extended e1, l1) ∧
      extendLoan l1 T B = (ExtendResult.extended e2, l2) ∧
      e1.returnDate = (loans.get ⟨i, hi⟩).returnDate + 21 ∧
      e2.returnDate = e1.returnDate + 21 ∧
      e1.returnDate ≠ e2.returnDate := by
  have hef1 := extendFirst_first_match B loans i hi hm hf
  have h1 := extendLoan_match l T B loans _ _ hl hef1
  obtain ⟨loans3, hef2⟩ := extendFirst_again B loans
    (loans.set i (extendDays (loans.get ⟨i, hi⟩)))
    (extendDays (loans.get ⟨i, hi⟩)) hef1
  have hl1 :
      ({ l with Loans :=
                  l.Loans.update T
                    (loans.set i (extendDays (loans.get ⟨i, hi⟩))) } :
          Library).Loans T =
        some (loans.set i (extendDays (loans.get ⟨i, hi⟩))) :=
    StrMap.update_self _ _ _
  have h2 := extendLoan_match _ T B _ loans3 _ hl1 hef2
  refine ⟨_, _, _, _, h1, h2, rfl, rfl, ?_⟩
  have : (extendDays (loans.get ⟨i, hi⟩)).returnDate =
      (loans.get ⟨i, hi⟩).returnDate + 21 := rfl
  simp only [extendDays]
  omega

theorem C5_witness :
    ∃ e1 l1 e2 l2,
      extendLoan testReturnLib "Design Patterns" "Bob Johnson" =
        (ExtendResult.extended e1, l1) ∧
      extendLoan l1 "Design Patterns" "Bob Johnson" =
        (ExtendResult.extended e2, l2) ∧
      e1.returnDate = 28 + 21 ∧
      e2.returnDate = e1.returnDate + 21 ∧
      e1.returnDate ≠ e2.returnDate :=
  C5_extend_twice testReturnLib "Design Patterns" "Bob Johnson"
    [bobLoan] 0 (by decide) (by decide) (by decide)
    (fun j hj hlt => absurd hlt (by omega))

/-- C6: when the title is in both maps and some loan matches the
borrower, return succeeds: the title's `availableCopies` grows by exactly
one, and the title's loan list becomes the swap-and-truncate removal — the
first matching index is overwritten with the last element and the list is
shortened by one — which is a permutation of the list with exactly the
first matching entry deleted (so no other loan is added or removed,
though the remaining order is not preserved). -/
theorem C6_return_swap_truncate (l : Library) (T B : String)
    (loans : List LoanDetail) (book : BookDetail) (i : Nat)
    (lastLoan : LoanDetail) (hi : i < loans.length)
    (hl : l.Loans T = some loans) (hb : l.Books T = some book)
    (hlast : loans.getLast? = some lastLoan)
    (hm : (loans.get ⟨i, hi⟩).nameOfBorrower = B)
    (hf : ∀ j, (hj : j < loans.length) → j < i →
      (loans.get ⟨j, hj⟩).nameOfBorrower ≠ B) :
    returnBook l T B =
      (ReturnResult.returned,
       { Books := l.Books.update T
           { book with availableCopies := book.availableCopies + 1 }
         Loans := l.Loans.update T ((loans.set i lastLoan).dropLast) }) ∧
    List.Perm ((loans.set i lastLoan).dropLast) (loans.eraseIdx i) := by
  have hidx := findLoanIndex_first_match B loans i hi hm hf
  exact ⟨returnBook_success l T B loans book i lastLoan hl hb hidx hlast,
         swapRemove_perm loans i hi lastLoan hlast⟩

theorem C6_witness :
    returnBook testReturnLib "Design Patterns" "Bob Johnson" =
      (ReturnResult.returned,
       { Books := testReturnLib.Books.update "Design Patterns"
           { title := "Design Patterns", availableCopies := 0 + 1 }
         Loans := testReturnLib.Loans.update "Design Patterns"
           (([bobLoan].set 0 bobLoan).dropLast) }) ∧
    List.Perm (([bobLoan].set 0 bobLoan).dropLast) ([bobLoan].eraseIdx 0) :=
  C6_return_swap_truncate testReturnLib "Design Patterns" "Bob Johnson"
    [bobLoan] { title := "Design Patterns", availableCopies := 0 } 0 bobLoan
    (by decide) (by decide) (by decide) (by decide) (by decide)
    (fun j hj hlt => absurd hlt (by omega))
/-- C7: on a cataloged title with a strictly positive count, borrow
followed by return for the same (title, borrower) both succeed; the final
`availableCopies` of the title equals its pre-borrow value and the final
loan-list length for the title equals its pre-borrow length (exactly the
one created loan is removed again). -/
theorem C7_borrow_return_roundtrip (l : Library) (T B : String) (now : Int)
    (book : BookDetail) (hb : l.Books T = some book)
    (hc : 0 < book.availableCopies) :
    ∃ loan l1 l2,
      borrowBook l T B now = (BorrowResult.created loan, l1) ∧
      returnBook l1 T B = (ReturnResult.returned, l2) ∧
      (∃ book2, l2.Books T = some book2 ∧
        book2.availableCopies = book.availableCopies) ∧
      (∃ loans2, l2.Loans T = some loans2 ∧
        loans2.length = ((l.Loans T).getD []).length) := by
  obtain ⟨i, hidx⟩ := findLoanIndex_isSome_of_mem B
    (((l.Loans T).getD []) ++
      [{ bookTitle := T, nameOfBorrower := B,
         loanDate := now, returnDate := now + 28 }])
    { bookTitle := T, nameOfBorrower := B,
      loanDate := now, returnDate := now + 28 }
    (by simp) rfl
  obtain ⟨lastLoan, hlast⟩ := getLast?_isSome_of_lt _ i
    (findLoanIndex_lt_length B _ i hidx)
  refine ⟨_, _, _, borrowBook_success l T B now book hb hc,
    returnBook_success _ T B _
      { book with availableCopies := book.availableCopies - 1 }
      i lastLoan (StrMap.update_self _ _ _) (StrMap.update_self _ _ _)
      hidx hlast,
    ⟨_, StrMap.update_self _ _ _, ?_⟩,
    ⟨_, StrMap.update_self _ _ _, ?_⟩⟩
  · show book.availableCopies - 1 + 1 = book.availableCopies
    omega
  · rw [List.length_dropLast, List.length_set, List.length_append]
    simp

theorem C7_witness :
    ∃ loan l1 l2,
      borrowBook NewLibrary "Go Programming" "John" 0 =
        (BorrowResult.created loan, l1) ∧
      returnBook l1 "Go Programming" "John" = (ReturnResult.returned, l2) ∧
      (∃ book2, l2.Books "Go Programming" = some book2 ∧
        book2.availableCopies = 3) ∧
      (∃ loans2, l2.Loans "Go Programming" = some loans2 ∧
        loans2.length =
          ((NewLibrary.Loans "Go Programming").getD []).length) :=
  C7_borrow_return_roundtrip NewLibrary "Go Programming" "John" 0
    { title := "Go Programming", availableCopies := 3 } (by decide) (by decide)

/-- C8 counterexample: on a store whose loan slice for "Go Programming" is
present but empty, extend and return both fail with the borrower-specific
not-found, not the title-level not-found the claim asserts for "no loans
exist for a title (including a title whose loan list is present but
empty)". -/
theorem C8_counterexample :
    extendLoan emptyLoanLib "Go Programming" "John" =
      (ExtendResult.noLoanForBorrower, emptyLoanLib) ∧
    (extendLoan emptyLoanLib "Go Programming" "John").1 ≠
      ExtendResult.noLoansForTitle ∧
    returnBook emptyLoanLib "Go Programming" "John" =
      (ReturnResult.noLoanForBorrower, emptyLoanLib) ∧
    (returnBook emptyLoanLib "Go Programming" "John").1 ≠
      ReturnResult.noLoansForTitle := by
  have he : extendLoan emptyLoanLib "Go Programming" "John" =
      (ExtendResult.noLoanForBorrower, emptyLoanLib) :=
    extendLoan_noMatch emptyLoanLib "Go Programming" "John" [] (by decide)
      (by simp)
  have hr : returnBook emptyLoanLib "Go Programming" "John" =
      (ReturnResult.noLoanForBorrower, emptyLoanLib) :=
    returnBook_noMatch emptyLoanLib "Go Programming" "John" []
      { title := "Go Programming", availableCopies := 3 } (by decide)
      (by decide) (by simp)
  refine ⟨he, ?_, hr, ?_⟩
  · rw [he]; decide
  · rw [hr]; decide

/-- C8 (amended): when the loan map has no entry at all for the title,
extend and return fail with the title-level not-found; when the entry is
present but the list is empty, both fail with the borrower-specific
not-found instead (return checks the catalog in between and reports the
book-level not-found whenever loans exist for the title but the title is
absent from the catalog).  Every one of these failures returns the store
exactly unchanged. -/
theorem C8_amended_not_found (l : Library) (T B : String) :
    (l.Loans T = none →
      extendLoan l T B = (ExtendResult.noLoansForTitle, l) ∧
      returnBook l T B = (ReturnResult.noLoansForTitle, l)) ∧
    (l.Loans T = some [] →
      extendLoan l T B = (ExtendResult.noLoanForBorrower, l)) ∧
    (∀ book, l.Loans T = some [] → l.Books T = some book →
      returnBook l T B = (ReturnResult.noLoanForBorrower, l)) ∧
    (∀ loans, l.Loans T = some loans → l.Books T = none →
      returnBook l T B = (ReturnResult.bookNotFound, l)) :=
  ⟨fun hl => ⟨extendLoan_noTitle l T B hl, returnBook_noTitle l T B hl⟩,
   fun hl => extendLoan_noMatch l T B [] hl (by simp),
   fun book hl hbk => returnBook_noMatch l T B [] book hl hbk (by simp),
   fun loans hl hbk => returnBook_noBook l T B loans hl hbk⟩

theorem C8_witness :
    NewLibrary.Loans "Clean Code" = none ∧
    extendLoan NewLibrary "Clean Code" "John" =
      (ExtendResult.noLoansForTitle, NewLibrary) ∧
    returnBook NewLibrary "Clean Code" "John" =
      (ReturnResult.noLoansForTitle, NewLibrary) :=
  ⟨rfl, ((C8_amended_not_found NewLibrary "Clean Code" "John").1 rfl).1,
   ((C8_amended_not_found NewLibrary "Clean Code" "John").1 rfl).2⟩

/-- C9: lookup returns the store unchanged and its answer is exactly the
map read at the requested key — an exact, case-sensitive match, so on the
seeded store the exact title answers while case variants miss — and no
operation creates or deletes a catalog key: after each of the four
operations, any title is present in the book map iff it was present
before. -/
theorem C9_lookup_and_catalog_keys (l : Library) (T B k : String)
    (now : Int) :
    (getBook l T).2 = l ∧
    (getBook l T).1 = l.Books T ∧
    (getBook NewLibrary "Go Programming").1 =
      some { title := "Go Programming", availableCopies := 3 } ∧
    (getBook NewLibrary "go programming").1 = none ∧
    (getBook NewLibrary "GO PROGRAMMING").1 = none ∧
    ((borrowBook l T B now).2.Books k).isSome = (l.Books k).isSome ∧
    ((extendLoan l T B).2.Books k).isSome = (l.Books k).isSome ∧
    ((returnBook l T B).2.Books k).isSome = (l.Books k).isSome := by
  refine ⟨rfl, rfl, by decide, by decide, by decide, ?_, ?_, ?_⟩
  · cases hb : l.Books T with
    | none => rw [borrowBook_absent l T B now hb]
    | some book =>
      by_cases hcopies : book.availableCopies ≤ 0
      · rw [borrowBook_noCopies_eq l T B now book hb hcopies]
      · rw [borrowBook_success l T B now book hb (lt_of_not_le hcopies)]
        exact StrMap.update_isSome _ _ _ _ (by rw [hb]; rfl)
  · rw [extendLoan_books]
  · cases hl : l.Loans T with
    | none => rw [returnBook_noTitle l T B hl]
    | some loans =>
      cases hb : l.Books T with
      | none => rw [returnBook_noBook l T B loans hl hb]
      | some book =>
        cases hidx : findLoanIndex B loans with
        | none => rw [returnBook_idx_none l T B loans book hl hb hidx]
        | some i =>
          obtain ⟨lastLoan, hlast⟩ := getLast?_isSome_of_lt loans i
            (findLoanIndex_lt_length B loans i hidx)
          rw [returnBook_success l T B loans book i lastLoan hl hb hidx hlast]
          exact StrMap.update_isSome _ _ _ _ (by rw [hb]; rfl)

/-- C10: extend never reads the book map.  On a store whose loan list for
a title is non-empty with a loan matching the borrower while the title is
absent from the catalog, extend succeeds, yet return on the very same
store fails with the book-level not-found and changes nothing (return
checks catalog membership, extend does not). -/
theorem C10_extend_ignores_catalog (l : Library) (T B : String)
    (loans : List LoanDetail) (lo : LoanDetail)
    (hl : l.Loans T = some loans) (hbn : l.Books T = none)
    (hmem : lo ∈ loans) (hname : lo.nameOfBorrower = B) :
    (∃ e l2, extendLoan l T B = (ExtendResult.extended e, l2)) ∧
    returnBook l T B = (ReturnResult.bookNotFound, l) := by
  obtain ⟨e, loans2, hef⟩ := extendFirst_isSome_of_mem B loans lo hmem hname
  exact ⟨⟨e, _, extendLoan_match l T B loans loans2 e hl hef⟩,
         returnBook_noBook l T B loans hl hbn⟩

theorem C10_witness :
    (∃ e l2, extendLoan ghostLib "Ghost Title" "Jane Smith" =
      (ExtendResult.extended e, l2)) ∧
    returnBook ghostLib "Ghost Title" "Jane Smith" =
      (ReturnResult.bookNotFound, ghostLib) :=
  C10_extend_ignores_catalog ghostLib "Ghost Title" "Jane Smith"
    [{ bookTitle := "Ghost Title", nameOfBorrower := "Jane Smith",
       loanDate := 0, returnDate := 28 }]
    { bookTitle := "Ghost Title", nameOfBorrower := "Jane Smith",
      loanDate := 0, returnDate := 28 }
    (by decide) rfl (by simp) rfl
